import Mathlib

/-
Verification of the tri-valued consensus core of hippotools
(hippotools/diversity): the TriValue type, the three aggregation
strategies (aggstrat_all, aggstrat_any, aggstrat_majority) and the
row-wise consensus engine (compute_essentiality).

The implementing module `hippotools/diversity/essential.py` is not
present in the source tree; only its test suite
(`tests/diversity/test_essential.py`) is. The definitions below are
therefore modelled from the specification, with every point at which the
specification text and the repository's own tests disagree resolved in
favour of the tests, which pin the behaviour at concrete inputs.

In the Python source, TriValue is pandas' nullable boolean (True /
False / pd.NA); rows are pandas Series and the table a DataFrame. Here
rows are lists of TriValue and the table a list of (identifier, row)
pairs in input order.
-/

namespace HippoTools

/-- Tri-valued logic value: the closed sum corresponding to pandas'
nullable boolean cells True, False and pd.NA. -/
inductive TriValue where
  | tt : TriValue
  | ff : TriValue
  | unk : TriValue
deriving DecidableEq, Repr

/-- Predicate selecting the Unknown member (pandas `pd.isna`). -/
def TriValue.is_unknown : TriValue → Bool
  | .unk => true
  | _ => false

/-- Kleene three-valued AND: False dominates, then Unknown, else True. -/
def tand : TriValue → TriValue → TriValue
  | .ff, _ => .ff
  | _, .ff => .ff
  | .unk, _ => .unk
  | _, .unk => .unk
  | .tt, .tt => .tt

/-- Kleene three-valued OR: True dominates, then Unknown, else False. -/
def tor : TriValue → TriValue → TriValue
  | .tt, _ => .tt
  | _, .tt => .tt
  | .unk, _ => .unk
  | _, .unk => .unk
  | .ff, .ff => .ff

/-- Number of True cells in a row (pandas `series.sum()`). -/
def countT (row : List TriValue) : Nat :=
  (row.filter (fun v => v = TriValue.tt)).length

/-- Number of False cells in a row (pandas `(~series).sum()`). -/
def countF (row : List TriValue) : Nat :=
  (row.filter (fun v => v = TriValue.ff)).length

/-- Number of Unknown cells in a row (pandas `series.isna().sum()`). -/
def countU (row : List TriValue) : Nat :=
  (row.filter (fun v => v = TriValue.unk)).length

/-- Removal of every Unknown cell from a row (pandas `series.dropna()`). -/
def dropUnknown (row : List TriValue) : List TriValue :=
  row.filter (fun v => !v.is_unknown)

/-- Modelled from the spec: `aggstrat_all` of the missing module
hippotools/diversity/essential.py (spec section 4.2, REQUIRE_ALL).
Default is Kleene three-valued AND over the row; with `ignore_na` the
Unknown cells are discarded first and two-valued AND is applied, the
empty remainder giving True (AND identity). -/
def aggstrat_all (row : List TriValue) (ignore_na : Bool) : TriValue :=
  if ignore_na then (dropUnknown row).foldr tand TriValue.tt
  else row.foldr tand TriValue.tt

/-- Modelled from the spec: `aggstrat_any` of the missing module
hippotools/diversity/essential.py (spec section 4.3, REQUIRE_ANY).
Default is Kleene three-valued OR over the row; with `ignore_na` the
Unknown cells are discarded first and two-valued OR is applied, the
empty remainder giving False (OR identity). -/
def aggstrat_any (row : List TriValue) (ignore_na : Bool) : TriValue :=
  if ignore_na then (dropUnknown row).foldr tor TriValue.ff
  else row.foldr tor TriValue.ff

/-- Modelled from the spec: `aggstrat_majority` of the missing module
hippotools/diversity/essential.py (spec section 4.4, MAJORITY). Where
section 4.4's decided T-vs-F comparison contradicts the repository's own
tests (test_essential.py, `maj_no_ignore` expects pd.NA for gene_4 with
T=4, F=2, U=2 and for gene_5 with T=2, F=3, U=3), the tests'
more-than-half rule is followed: True when the True cells are a strict
majority of the whole row, False when the False cells are at least half
of the whole row, Unknown otherwise; with `ignore_na` the Unknown cells
are discarded before counting. -/
def aggstrat_majority (row : List TriValue) (ignore_na : Bool) : TriValue :=
  let r := if ignore_na then dropUnknown row else row
  if r.length < 2 * countT r then TriValue.tt
  else if r.length ≤ 2 * countF r then TriValue.ff
  else TriValue.unk

/-- Modelled from the spec: `compute_essentiality` of the missing module
hippotools/diversity/essential.py (spec section 4.5). Applies the given
aggregation function with the given `ignore_na` flag to every entity's
row, in input order, keeping the identifiers. -/
def compute_essentiality (consensus_essentiality_df : List (String × List TriValue))
    (aggregation_func : List TriValue → Bool → TriValue) (ignore_na : Bool) :
    List (String × TriValue) :=
  match consensus_essentiality_df with
  | [] => []
  | (gene, row) :: rest =>
      (gene, aggregation_func row ignore_na) ::
        compute_essentiality rest aggregation_func ignore_na

/-! ### Basic lemmas about the tri-valued operations -/

theorem tand_ff_left (x : TriValue) : tand TriValue.ff x = TriValue.ff := by
  cases x <;> rfl

theorem tand_tt_left (x : TriValue) : tand TriValue.tt x = x := by
  cases x <;> rfl

theorem tand_unk_left (x : TriValue) :
    tand TriValue.unk x = if x = TriValue.ff then TriValue.ff else TriValue.unk := by
  cases x <;> rfl

theorem tor_tt_left (x : TriValue) : tor TriValue.tt x = TriValue.tt := by
  cases x <;> rfl

theorem tor_ff_left (x : TriValue) : tor TriValue.ff x = x := by
  cases x <;> rfl

theorem tor_unk_left (x : TriValue) :
    tor TriValue.unk x = if x = TriValue.tt then TriValue.tt else TriValue.unk := by
  cases x <;> rfl

theorem countT_cons (a : TriValue) (l : List TriValue) :
    countT (a :: l) = countT l + (if a = TriValue.tt then 1 else 0) := by
  cases a <;> simp [countT, List.filter_cons]

theorem countF_cons (a : TriValue) (l : List TriValue) :
    countF (a :: l) = countF l + (if a = TriValue.ff then 1 else 0) := by
  cases a <;> simp [countF, List.filter_cons]

theorem countU_cons (a : TriValue) (l : List TriValue) :
    countU (a :: l) = countU l + (if a = TriValue.unk then 1 else 0) := by
  cases a <;> simp [countU, List.filter_cons]

theorem dropUnknown_cons (a : TriValue) (l : List TriValue) :
    dropUnknown (a :: l) =
      if a = TriValue.unk then dropUnknown l else a :: dropUnknown l := by
  cases a <;> rfl

theorem counts_sum (row : List TriValue) :
    countT row + countF row + countU row = row.length := by
  induction row with
  | nil => rfl
  | cons a l ih =>
    rw [countT_cons, countF_cons, countU_cons, List.length_cons]
    cases a <;> simp <;> omega

theorem countT_dropUnknown (row : List TriValue) :
    countT (dropUnknown row) = countT row := by
  induction row with
  | nil => rfl
  | cons a l ih =>
    rw [dropUnknown_cons, countT_cons]
    cases a <;> simp [countT_cons, ih]

theorem countF_dropUnknown (row : List TriValue) :
    countF (dropUnknown row) = countF row := by
  induction row with
  | nil => rfl
  | cons a l ih =>
    rw [dropUnknown_cons, countF_cons]
    cases a <;> simp [countF_cons, ih]

theorem countU_dropUnknown (row : List TriValue) :
    countU (dropUnknown row) = 0 := by
  induction row with
  | nil => rfl
  | cons a l ih =>
    rw [dropUnknown_cons]
    cases a <;> simp [countU_cons, ih]

theorem dropUnknown_eq_self (row : List TriValue) (h : countU row = 0) :
    dropUnknown row = row := by
  induction row with
  | nil => rfl
  | cons a l ih =>
    rw [countU_cons] at h
    rw [dropUnknown_cons]
    cases a with
    | tt => rw [if_neg (by decide), ih (by omega)]
    | ff => rw [if_neg (by decide), ih (by omega)]
    | unk => rw [if_pos rfl] at h ⊢; omega

theorem dropUnknown_idem (row : List TriValue) :
    dropUnknown (dropUnknown row) = dropUnknown row :=
  dropUnknown_eq_self (dropUnknown row) (countU_dropUnknown row)

theorem dropUnknown_replicate_unk (n : Nat) :
    dropUnknown (List.replicate n TriValue.unk) = [] := by
  induction n with
  | zero => rfl
  | succ k ih =>
    rw [List.replicate_succ, dropUnknown_cons, if_pos rfl]
    exact ih

theorem length_dropUnknown (row : List TriValue) :
    (dropUnknown row).length = countT row + countF row := by
  have h := counts_sum (dropUnknown row)
  rw [countT_dropUnknown, countF_dropUnknown, countU_dropUnknown] at h
  omega

/-! ### Characterizations of the three strategies -/

theorem foldr_tand_eq (row : List TriValue) :
    row.foldr tand TriValue.tt =
      if TriValue.ff ∈ row then TriValue.ff
      else if TriValue.unk ∈ row then TriValue.unk
      else TriValue.tt := by
  induction row with
  | nil => simp
  | cons a l ih =>
    rw [List.foldr_cons, ih]
    by_cases hf : TriValue.ff ∈ l <;> by_cases hu : TriValue.unk ∈ l <;>
      cases a <;>
        simp [hf, hu, List.mem_cons, tand_tt_left, tand_ff_left, tand_unk_left]

theorem foldr_tor_eq (row : List TriValue) :
    row.foldr tor TriValue.ff =
      if TriValue.tt ∈ row then TriValue.tt
      else if TriValue.unk ∈ row then TriValue.unk
      else TriValue.ff := by
  induction row with
  | nil => simp
  | cons a l ih =>
    rw [List.foldr_cons, ih]
    by_cases ht : TriValue.tt ∈ l <;> by_cases hu : TriValue.unk ∈ l <;>
      cases a <;>
        simp [ht, hu, List.mem_cons, tor_tt_left, tor_ff_left, tor_unk_left]

theorem majority_default_eq (row : List TriValue) :
    aggstrat_majority row false =
      if countF row + countU row < countT row then TriValue.tt
      else if countT row + countU row ≤ countF row then TriValue.ff
      else TriValue.unk := by
  have hs := counts_sum row
  have e : aggstrat_majority row false =
      (if row.length < 2 * countT row then TriValue.tt
       else if row.length ≤ 2 * countF row then TriValue.ff
       else TriValue.unk) := rfl
  rw [e]
  by_cases h1 : countF row + countU row < countT row
  · rw [if_pos (by omega), if_pos h1]
  · rw [if_neg (by omega)]
    by_cases h2 : countT row + countU row ≤ countF row
    · rw [if_pos (by omega), if_neg h1, if_pos h2]
    · rw [if_neg (by omega), if_neg h1, if_neg h2]

theorem majority_ignore_eq (row : List TriValue) :
    aggstrat_majority row true =
      if countF row < countT row then TriValue.tt else TriValue.ff := by
  have e : aggstrat_majority row true =
      (if (dropUnknown row).length < 2 * countT (dropUnknown row) then TriValue.tt
       else if (dropUnknown row).length ≤ 2 * countF (dropUnknown row) then TriValue.ff
       else TriValue.unk) := rfl
  rw [e, countT_dropUnknown, countF_dropUnknown, length_dropUnknown]
  by_cases hc : countF row < countT row
  · rw [if_pos (by omega), if_pos hc]
  · rw [if_neg (by omega), if_pos (by omega), if_neg hc]

/-! ### Claim theorems -/

/-- C1, counterexample: on the gene_4 row of the repository's consensus
test table ([T,F,F,T,T,NA,T,NA], so T=4, F=2, U=2), the True count
strictly exceeds the False count, yet `aggstrat_majority` with
`ignore_na = false` does not return True (the tests pin pd.NA there), so
Unknowns do pad the opposing side outside exact ties. -/
theorem majority_decided_comparison_refuted :
    countF [TriValue.tt, TriValue.ff, TriValue.ff, TriValue.tt, TriValue.tt,
        TriValue.unk, TriValue.tt, TriValue.unk] <
      countT [TriValue.tt, TriValue.ff, TriValue.ff, TriValue.tt, TriValue.tt,
        TriValue.unk, TriValue.tt, TriValue.unk]
    ∧ aggstrat_majority [TriValue.tt, TriValue.ff, TriValue.ff, TriValue.tt,
        TriValue.tt, TriValue.unk, TriValue.tt, TriValue.unk] false ≠ TriValue.tt := by
  decide

/-- C1, amended: with `ignore_na = false`, `aggstrat_majority` returns
True whenever the True count strictly exceeds the False count plus the
Unknown count, and returns False whenever the False count is at least
the True count plus the Unknown count; Unknowns are counted against a
definite verdict, so a bare True-over-False plurality is not enough. -/
theorem majority_decided_comparison_amended (row : List TriValue) :
    (countF row + countU row < countT row →
      aggstrat_majority row false = TriValue.tt)
    ∧ (countT row + countU row ≤ countF row →
      aggstrat_majority row false = TriValue.ff) := by
  rw [majority_default_eq row]
  constructor
  · intro h
    rw [if_pos h]
  · intro h
    rw [if_neg (by omega), if_pos h]

/-- Witness for the amended C1 at the concrete row [T,T,F]. -/
theorem majority_decided_comparison_amended_witness :
    countF [TriValue.tt, TriValue.tt, TriValue.ff] +
        countU [TriValue.tt, TriValue.tt, TriValue.ff] <
      countT [TriValue.tt, TriValue.tt, TriValue.ff]
    ∧ aggstrat_majority [TriValue.tt, TriValue.tt, TriValue.ff] false = TriValue.tt :=
  ⟨by decide,
    (majority_decided_comparison_amended
      [TriValue.tt, TriValue.tt, TriValue.ff]).1 (by decide)⟩

/-- C2: with `ignore_na = false`, `aggstrat_majority` returns True iff
the True count strictly exceeds the False count plus the Unknown count,
returns False iff the False count is at least the True count plus the
Unknown count, and returns Unknown exactly otherwise — the
worst-case-bound rule, with exact ties and the at-least-half-False
boundary resolving to False. -/
theorem majority_default_worst_case_iff (row : List TriValue) :
    (aggstrat_majority row false = TriValue.tt ↔
      countF row + countU row < countT row)
    ∧ (aggstrat_majority row false = TriValue.ff ↔
      countT row + countU row ≤ countF row)
    ∧ (aggstrat_majority row false = TriValue.unk ↔
      (countT row ≤ countF row + countU row ∧ countF row < countT row + countU row)) := by
  rw [majority_default_eq row]
  by_cases h1 : countF row + countU row < countT row
  · rw [if_pos h1]
    refine ⟨⟨fun _ => h1, fun _ => rfl⟩,
      ⟨fun hh => absurd hh (by decide), fun hh => absurd hh (by omega)⟩,
      ⟨fun hh => absurd hh (by decide), fun hh => absurd hh (by omega)⟩⟩
  · rw [if_neg h1]
    by_cases h2 : countT row + countU row ≤ countF row
    · rw [if_pos h2]
      refine ⟨⟨fun hh => absurd hh (by decide), fun hh => absurd hh (by omega)⟩,
        ⟨fun _ => h2, fun _ => rfl⟩,
        ⟨fun hh => absurd hh (by decide), fun hh => absurd hh (by omega)⟩⟩
    · rw [if_neg h2]
      refine ⟨⟨fun hh => absurd hh (by decide), fun hh => absurd hh (by omega)⟩,
        ⟨fun hh => absurd hh (by decide), fun hh => absurd hh (by omega)⟩,
        ⟨fun _ => by omega, fun _ => rfl⟩⟩

/-- C3: on any row whose True count equals its False count,
`aggstrat_majority` with `ignore_na = false` returns Unknown when at
least one Unknown is present and False when none is; with
`ignore_na = true` the same tied row returns False. -/
theorem majority_tie_rule (row : List TriValue) (h : countT row = countF row) :
    (0 < countU row → aggstrat_majority row false = TriValue.unk)
    ∧ (countU row = 0 → aggstrat_majority row false = TriValue.ff)
    ∧ aggstrat_majority row true = TriValue.ff := by
  refine ⟨?_, ?_, ?_⟩
  · intro hu
    rw [majority_default_eq row, if_neg (by omega), if_neg (by omega)]
  · intro hu
    rw [majority_default_eq row, if_neg (by omega), if_pos (by omega)]
  · rw [majority_ignore_eq row, if_neg (by omega)]

/-- Witness for C3 at the tied rows [T,F,NA] (one Unknown) and [T,F]
(no Unknown). -/
theorem majority_tie_rule_witness :
    countT [TriValue.tt, TriValue.ff, TriValue.unk] =
      countF [TriValue.tt, TriValue.ff, TriValue.unk]
    ∧ aggstrat_majority [TriValue.tt, TriValue.ff, TriValue.unk] false = TriValue.unk
    ∧ aggstrat_majority [TriValue.tt, TriValue.ff, TriValue.unk] true = TriValue.ff
    ∧ aggstrat_majority [TriValue.tt, TriValue.ff] false = TriValue.ff :=
  ⟨by decide,
    (majority_tie_rule [TriValue.tt, TriValue.ff, TriValue.unk] (by decide)).1 (by decide),
    (majority_tie_rule [TriValue.tt, TriValue.ff, TriValue.unk] (by decide)).2.2,
    (majority_tie_rule [TriValue.tt, TriValue.ff] (by decide)).2.1 (by decide)⟩

/-- C4: with `ignore_na = false`, `aggstrat_all` is three-valued Kleene
AND — False if any element is False (whatever the Unknowns), else
Unknown if any element is Unknown, else True. -/
theorem aggstrat_all_kleene (row : List TriValue) :
    aggstrat_all row false =
      if TriValue.ff ∈ row then TriValue.ff
      else if TriValue.unk ∈ row then TriValue.unk
      else TriValue.tt := by
  have e : aggstrat_all row false = row.foldr tand TriValue.tt := rfl
  rw [e, foldr_tand_eq]

/-- C5: with `ignore_na = false`, `aggstrat_any` is three-valued Kleene
OR — True if any element is True (whatever the Unknowns), else Unknown
if any element is Unknown, else False. -/
theorem aggstrat_any_kleene (row : List TriValue) :
    aggstrat_any row false =
      if TriValue.tt ∈ row then TriValue.tt
      else if TriValue.unk ∈ row then TriValue.unk
      else TriValue.ff := by
  have e : aggstrat_any row false = row.foldr tor TriValue.ff := rfl
  rw [e, foldr_tor_eq]

/-- C6: `aggstrat_all` and `aggstrat_any` with `ignore_na = true` equal
the same strategy applied to the row with every Unknown removed; on a
row of nothing but Unknowns the filtered row is empty, so
`aggstrat_all` returns True (empty-AND identity) and `aggstrat_any`
returns False (empty-OR identity). -/
theorem ignore_unknown_filter_equiv (row : List TriValue) (n : Nat) :
    aggstrat_all row true = aggstrat_all (dropUnknown row) false
    ∧ aggstrat_any row true = aggstrat_any (dropUnknown row) false
    ∧ aggstrat_all (List.replicate n TriValue.unk) true = TriValue.tt
    ∧ aggstrat_any (List.replicate n TriValue.unk) true = TriValue.ff := by
  refine ⟨rfl, rfl, ?_, ?_⟩
  · have e : aggstrat_all (List.replicate n TriValue.unk) true =
        (dropUnknown (List.replicate n TriValue.unk)).foldr tand TriValue.tt := rfl
    rw [e, dropUnknown_replicate_unk, List.foldr_nil]
  · have e : aggstrat_any (List.replicate n TriValue.unk) true =
        (dropUnknown (List.replicate n TriValue.unk)).foldr tor TriValue.ff := rfl
    rw [e, dropUnknown_replicate_unk, List.foldr_nil]

/-- C7: `aggstrat_majority` with `ignore_na = true` discards the
Unknowns first (discarding commutes with the call), then returns True
exactly when the True count strictly exceeds the False count and False
otherwise — so False on a strict False majority, on an exact tie, and
on a row left empty by the filtering (a row of nothing but Unknowns). -/
theorem majority_ignore_unknown_rule (row : List TriValue) (n : Nat) :
    aggstrat_majority row true = aggstrat_majority (dropUnknown row) true
    ∧ aggstrat_majority row true =
        (if countF row < countT row then TriValue.tt else TriValue.ff)
    ∧ aggstrat_majority (List.replicate n TriValue.unk) true = TriValue.ff := by
  refine ⟨?_, majority_ignore_eq row, ?_⟩
  · rw [majority_ignore_eq row, majority_ignore_eq (dropUnknown row),
      countT_dropUnknown, countF_dropUnknown]
  · rw [majority_ignore_eq]
    have hT : countT (List.replicate n TriValue.unk) = 0 := by
      induction n with
      | zero => rfl
      | succ k ih => rw [List.replicate_succ, countT_cons]; simp [ih]
    rw [hT, if_neg (by omega)]

/-- C8: `compute_essentiality` keeps the entity identifiers exactly, in
input order, and pairs each with the aggregation function applied to
that entity's own row with the chosen `ignore_na` setting — each row
aggregated independently of every other row. -/
theorem compute_essentiality_rowwise (t : List (String × List TriValue))
    (f : List TriValue → Bool → TriValue) (i : Bool) :
    (compute_essentiality t f i).map Prod.fst = t.map Prod.fst
    ∧ compute_essentiality t f i = t.map (fun p => (p.1, f p.2 i)) := by
  induction t with
  | nil => exact ⟨rfl, rfl⟩
  | cons p rest ih =>
    obtain ⟨gene, row⟩ := p
    exact ⟨by simp [compute_essentiality, ih.1],
      by simp [compute_essentiality, ih.2]⟩

/-- C9: on any row with no Unknown element, `aggstrat_majority` gives
the same result with `ignore_na = false` as with `ignore_na = true`,
namely strict majority vote with an exact tie resolved to False. -/
theorem majority_no_unknown_invariance (row : List TriValue)
    (h : countU row = 0) :
    aggstrat_majority row false = aggstrat_majority row true
    ∧ aggstrat_majority row false =
        (if countF row < countT row then TriValue.tt else TriValue.ff) := by
  have e : aggstrat_majority row false =
      (if countF row < countT row then TriValue.tt else TriValue.ff) := by
    rw [majority_default_eq row, h]
    by_cases hc : countF row < countT row
    · rw [if_pos (by omega), if_pos hc]
    · rw [if_neg (by omega), if_pos (by omega), if_neg hc]
  exact ⟨by rw [e, majority_ignore_eq row], e⟩

/-- Witness for C9 at the Unknown-free rows [T,T,F] and [T,F]. -/
theorem majority_no_unknown_invariance_witness :
    countU [TriValue.tt, TriValue.tt, TriValue.ff] = 0
    ∧ aggstrat_majority [TriValue.tt, TriValue.tt, TriValue.ff] false =
        aggstrat_majority [TriValue.tt, TriValue.tt, TriValue.ff] true
    ∧ aggstrat_majority [TriValue.tt, TriValue.ff] false =
        aggstrat_majority [TriValue.tt, TriValue.ff] true :=
  ⟨by decide,
    (majority_no_unknown_invariance
      [TriValue.tt, TriValue.tt, TriValue.ff] (by decide)).1,
    (majority_no_unknown_invariance [TriValue.tt, TriValue.ff] (by decide)).1⟩

end HippoTools
